import Mathlib

/-!
# LC-3 virtual machine (lc3.c): shallow embedding and verified properties

The machine state of `lc3.c` is the global array `memory`, the global array
`reg` and the local variable `running` of `main`.  Every `uint16_t` is a
natural number, with `% 65536` written out wherever the C code truncates a
wider intermediate result back to sixteen bits.  An access to `reg` outside
`0 .. R_COUNT-1` is undefined behaviour in C.  The bounds-checked definitions
(`step`, `run_loop`) report it as a `Fault`; the flat-address-space definitions
(`step_flat`, `run_flat`) give it the meaning it has in a compiled build, where
the access goes to the storage behind the array and the loop goes on.
-/

namespace LC3

/-! ## Hardware components (lc3.c, lines 12-60) -/

/-- Number of memory cells, `#define MEMORY_MAX (1 << 16)`. -/
abbrev MEMORY_MAX : Nat := 1 <<< 16

abbrev R_R0 : Nat := 0
abbrev R_R1 : Nat := 1
abbrev R_R2 : Nat := 2
abbrev R_R3 : Nat := 3
abbrev R_R4 : Nat := 4
abbrev R_R5 : Nat := 5
abbrev R_R6 : Nat := 6
abbrev R_R7 : Nat := 7
/-- Program counter slot of `reg`. -/
abbrev R_PC : Nat := 8
/-- Condition register slot of `reg`. -/
abbrev R_COND : Nat := 9
/-- Length of the array `reg`. -/
abbrev R_COUNT : Nat := 10

abbrev OP_BR : Nat := 0
abbrev OP_ADD : Nat := 1
abbrev OP_LD : Nat := 2
abbrev OP_ST : Nat := 3
abbrev OP_JSR : Nat := 4
abbrev OP_AND : Nat := 5
abbrev OP_LDR : Nat := 6
abbrev OP_STR : Nat := 7
abbrev OP_RTI : Nat := 8
abbrev OP_NOT : Nat := 9
abbrev OP_LDI : Nat := 10
abbrev OP_STI : Nat := 11
abbrev OP_JMP : Nat := 12
abbrev OP_RES : Nat := 13
abbrev OP_LEA : Nat := 14
abbrev OP_TRAP : Nat := 15

/-- Flag P, `FL_POS = 1 << 0`. -/
abbrev FL_POS : Nat := 1 <<< 0
/-- Flag Z, `FL_ZRO = 1 << 1`. -/
abbrev FL_ZRO : Nat := 1 <<< 1
/-- Flag N, `FL_NEG = 1 << 2`. -/
abbrev FL_NEG : Nat := 1 <<< 2

/-- Start address, `enum { PC_START = 0x3000 }` in `main`. -/
abbrev PC_START : Nat := 0x3000

/-- Modelled from the spec: the keyboard status address 0xFE00 (sections 3
and 4.1); lc3.c declares no name for it. -/
abbrev MR_KBSR : Nat := 0xFE00

/-- Modelled from the spec: the keyboard data address 0xFE02 (sections 3 and
4.1); lc3.c declares no name for it. -/
abbrev MR_KBDR : Nat := 0xFE02

/-- Outcome of an access that C leaves undefined. -/
inductive Fault where
  | reg_out_of_bounds : Fault
  deriving DecidableEq, Repr

/-- Machine state: the globals `memory` and `reg`, the local `running` of
`main`, and the keyboard device behind the two mapped addresses.  `polls` is
the sequence of answers the terminal adapter will give to `poll_char`. -/
structure VM where
  memory : Nat → Nat
  reg : Nat → Nat
  running : Nat
  kbd_ready : Bool
  kbd_data : Nat
  polls : List (Option Nat)

/-- Assignment `reg[r] = v` for an index known to be inside the array. -/
def set_reg (s : VM) (r v : Nat) : VM :=
  { s with reg := fun i => if i = r then v else s.reg i }

/-- Read of `reg[r]` for a computed index: outside the array it is undefined
behaviour. -/
def load_reg (s : VM) (r : Nat) : Except Fault Nat :=
  if r < R_COUNT then .ok (s.reg r) else .error .reg_out_of_bounds

/-- Assignment `reg[r] = v` for a computed index: outside the array it is
undefined behaviour. -/
def store_reg (s : VM) (r v : Nat) : Except Fault VM :=
  if r < R_COUNT then .ok (set_reg s r v) else .error .reg_out_of_bounds

/-- Status word of the keyboard: bit 15 says that a key is available. -/
def kbd_status (ready : Bool) : Nat :=
  if ready then 1 <<< 15 else 0

/-- Modelled from the spec: `mem_read` is called by `main` but lc3.c does not
define it.  Section 4.1: the address is an unsigned 16-bit value; a read of
the keyboard status address first polls the terminal adapter and, if a
character is pending, sets the status bit and stages the character for the
keyboard data address; a read of the keyboard data address returns the staged
character and (section 3) clears availability.  Every other read returns the
memory cell.  Reads never change `memory` (section 3, lifecycles). -/
def mem_read (s : VM) (address : Nat) : Nat × VM :=
  let a := address % MEMORY_MAX
  if a = MR_KBSR then
    match s.polls with
    | [] => (kbd_status s.kbd_ready, s)
    | none :: rest => (kbd_status s.kbd_ready, { s with polls := rest })
    | some c :: rest =>
        (kbd_status true,
          { s with kbd_ready := true, kbd_data := c % 256, polls := rest })
  else if a = MR_KBDR then
    (s.kbd_data, { s with kbd_ready := false })
  else
    (s.memory a, s)

/-! ## Helpers of lc3.c (lines 208-225) -/

/-- Source `sign_extend` (lines 208-213): `0xFFFF << bit_count` is an `int`,
and the assignment back to the `uint16_t x` keeps the low sixteen bits.  The
callers pass a bit count of 5 or 9; for `bit_count = 0` the C shift by `-1` is
undefined and the truncated subtraction here is not meant to describe it. -/
def sign_extend (x bit_count : Nat) : Nat :=
  if (x >>> (bit_count - 1)) &&& 1 ≠ 0 then
    (x ||| (0xFFFF <<< bit_count)) % 65536
  else
    x

/-- Source `update_flags` (lines 215-225). -/
def update_flags (s : VM) (r : Nat) : Except Fault VM := do
  let v ← load_reg s r
  if v = 0 then
    pure (set_reg s R_COND FL_ZRO)
  else if v >>> 15 ≠ 0 then
    pure (set_reg s R_COND FL_NEG)
  else
    pure (set_reg s R_COND FL_POS)

/-! ## The run loop of `main` (lines 79-198) -/

/-- Lines 79-88 of `main`: `reg[R_COND] = FL_ZRO; reg[R_PC] = PC_START;
int running = 1;`. -/
def main_setup (s : VM) : VM :=
  { set_reg (set_reg s R_COND FL_ZRO) R_PC PC_START with running := 1 }

/-- Line 91, `uint16_t instr = mem_read(reg[R_PC]++);`: the fetched word and
the state after the fetch.  The increment wraps at sixteen bits. -/
def fetch (s : VM) : Nat × VM :=
  let pc := s.reg R_PC
  mem_read (set_reg s R_PC ((pc + 1) % 65536)) pc

/-- Body of `case OP_ADD` (lines 114-152) on the fetched word `instr`. -/
def exec_add (s : VM) (instr : Nat) : Except Fault VM :=
  let r0 := (instr >>> 9) &&& 0x7
  let r1 := (instr >>> 6) &&& 0x7
  let imm_flag := (instr >>> 5) &&& 0x1
  if imm_flag ≠ 0 then do
    let imm5 := sign_extend (instr &&& 0x1F) 5
    let a ← load_reg s r1
    let s1 ← store_reg s r0 ((a + imm5) % 65536)
    update_flags s1 r0
  else do
    let r2 := instr &&& 0x7
    let a ← load_reg s r1
    let b ← load_reg s r2
    let s1 ← store_reg s r0 ((a + b) % 65536)
    update_flags s1 r0

/-- Destination index of `case OP_LDI` (line 172), as written in the source:
`uint16_t r0 = (instr >> 9) * 0x7;`. -/
def ldi_r0 (instr : Nat) : Nat :=
  ((instr >>> 9) * 0x7) % 65536

/-- Body of `case OP_LDI` (lines 171-178) on the fetched word `instr`. -/
def exec_ldi (s : VM) (instr : Nat) : Except Fault VM := do
  let r0 := ldi_r0 instr
  let pc_offset := sign_extend (instr &&& 0x1FF) 9
  let inner := mem_read s (s.reg R_PC + pc_offset)
  let outer := mem_read inner.2 inner.1
  let s1 ← store_reg outer.2 r0 outer.1
  update_flags s1 r0

/-- One iteration of the `while (running)` loop (lines 89-198): fetch, decode
`op = instr >> 12`, dispatch.  Every case other than `OP_ADD` and `OP_LDI`,
and the `default`, is an empty `break`. -/
def step (s : VM) : Except Fault VM :=
  let instr := (fetch s).1
  let s1 := (fetch s).2
  let op := instr >>> 12
  if op = OP_ADD then exec_add s1 instr
  else if op = OP_LDI then exec_ldi s1 instr
  else .ok s1

/-- The loop `while (running) { ... }` for at most `fuel` iterations. -/
def run_loop : Nat → VM → Except Fault VM
  | 0, s => .ok s
  | fuel + 1, s =>
      if s.running = 0 then .ok s
      else (step s).bind fun s1 => run_loop fuel s1

/-- The condition register value `c` is the flag selected by the 16-bit value
`v`: exactly one of the three flags, Negative iff bit 15 of `v` is 1, Zero iff
`v = 0`, Positive otherwise. -/
def flags_from (v c : Nat) : Prop :=
  (c = FL_NEG ∨ c = FL_ZRO ∨ c = FL_POS) ∧
  (c = FL_NEG ↔ v.testBit 15 = true) ∧
  (c = FL_ZRO ↔ v = 0) ∧
  (c = FL_POS ↔ (v.testBit 15 = false ∧ v ≠ 0))

instance flags_from_decidable (v c : Nat) : Decidable (flags_from v c) := by
  unfold flags_from
  infer_instance

/-! ## The run loop in a flat address space

`case OP_LDI` indexes `reg` at 560..609.  A compiled build does not stop
there: the access goes to the storage that lies `2 * r0` bytes behind the
start of `reg`, and the loop goes on.  The definitions below follow the same
source lines as above with that reading of `reg[r]`.  Where the slot lies is
a matter of the linker, so it is a parameter: `overlay r` names the cell of
`memory` that occupies the storage of `reg[r]`, if one does; otherwise the
slot is storage of its own, kept in the field `reg` at index `r`.  The slot is
taken not to be one of the ten elements of `reg` (its index is at least
`R_COUNT`) nor anything else the loop uses. -/

/-- Read of `reg[r]` in a flat address space. -/
def load_flat (overlay : Nat → Option Nat) (s : VM) (r : Nat) : Nat :=
  if r < R_COUNT then s.reg r
  else
    match overlay r with
    | some k => s.memory (k % MEMORY_MAX)
    | none => s.reg r

/-- Assignment `reg[r] = v` in a flat address space. -/
def store_flat (overlay : Nat → Option Nat) (s : VM) (r v : Nat) : VM :=
  if r < R_COUNT then set_reg s r v
  else
    match overlay r with
    | some k => { s with memory := fun a => if a = k % MEMORY_MAX then v else s.memory a }
    | none => set_reg s r v

/-- Source `update_flags` (lines 215-225) in a flat address space. -/
def update_flags_flat (overlay : Nat → Option Nat) (s : VM) (r : Nat) : VM :=
  if load_flat overlay s r = 0 then
    set_reg s R_COND FL_ZRO
  else if load_flat overlay s r >>> 15 ≠ 0 then
    set_reg s R_COND FL_NEG
  else
    set_reg s R_COND FL_POS

/-- Body of `case OP_ADD` (lines 114-152) in a flat address space. -/
def exec_add_flat (overlay : Nat → Option Nat) (s : VM) (instr : Nat) : VM :=
  let r0 := (instr >>> 9) &&& 0x7
  let r1 := (instr >>> 6) &&& 0x7
  let imm_flag := (instr >>> 5) &&& 0x1
  if imm_flag ≠ 0 then
    let imm5 := sign_extend (instr &&& 0x1F) 5
    update_flags_flat overlay
      (store_flat overlay s r0 ((load_flat overlay s r1 + imm5) % 65536)) r0
  else
    let r2 := instr &&& 0x7
    update_flags_flat overlay
      (store_flat overlay s r0
        ((load_flat overlay s r1 + load_flat overlay s r2) % 65536)) r0

/-- Body of `case OP_LDI` (lines 171-178) in a flat address space. -/
def exec_ldi_flat (overlay : Nat → Option Nat) (s : VM) (instr : Nat) : VM :=
  let r0 := ldi_r0 instr
  let pc_offset := sign_extend (instr &&& 0x1FF) 9
  let inner := mem_read s (s.reg R_PC + pc_offset)
  let outer := mem_read inner.2 inner.1
  update_flags_flat overlay (store_flat overlay outer.2 r0 outer.1) r0

/-- One iteration of the `while (running)` loop (lines 89-198) in a flat
address space. -/
def step_flat (overlay : Nat → Option Nat) (s : VM) : VM :=
  let instr := (fetch s).1
  let s1 := (fetch s).2
  let op := instr >>> 12
  if op = OP_ADD then exec_add_flat overlay s1 instr
  else if op = OP_LDI then exec_ldi_flat overlay s1 instr
  else s1

/-- The loop `while (running) { ... }` in a flat address space, for at most
`fuel` iterations. -/
def run_flat (overlay : Nat → Option Nat) : Nat → VM → VM
  | 0, s => s
  | fuel + 1, s =>
      if s.running = 0 then s
      else run_flat overlay fuel (step_flat overlay s)

/-! ## Example states -/

/-- A state with an empty keyboard, `running = 1` and the given memory and
registers. -/
def mk_state (memory reg : Nat → Nat) : VM :=
  { memory := memory, reg := reg, running := 1,
    kbd_ready := false, kbd_data := 0, polls := [] }

/-- Program `ADD R0 R1 R2` at 0x3000 with `R1 = 5`, `R2 = 3`. -/
def add_reg_demo : VM :=
  mk_state (fun a => if a = 0x3000 then 0x1042 else 0)
    (fun r => if r = 1 then 5 else if r = 2 then 3 else if r = 8 then 0x3000
      else if r = 9 then 2 else 0)

/-- Program `ADD R0 R0 #-1` at 0x3000 with `R0 = 0`. -/
def add_imm_demo : VM :=
  mk_state (fun a => if a = 0x3000 then 0x103F else 0)
    (fun r => if r = 8 then 0x3000 else if r = 9 then 2 else 0)

/-- Program `LDI R0, #1` at 0x3000, with the pointer 0x4000 stored at 0x3002
and the value 0x1234 stored at 0x4000 (the round trip of the spec). -/
def ldi_demo : VM :=
  mk_state
    (fun a => if a = 0x3000 then 0xA001 else if a = 0x3002 then 0x4000
      else if a = 0x4000 then 0x1234 else 0)
    (fun r => if r = 8 then 0x3000 else if r = 9 then 2 else 0)

/-- Program `LDI R0, #1; ADD R1 R1 #1` at 0x3000, with the pointer 0x4000
stored at 0x3002 and the value 0x8234 stored at 0x4000. -/
def ldi_add_demo : VM :=
  mk_state
    (fun a => if a = 0x3000 then 0xA001 else if a = 0x3001 then 0x1261
      else if a = 0x3002 then 0x4000 else if a = 0x4000 then 0x8234 else 0)
    (fun _ => 0)

/-- Program `BRz #5` at 0x3000, flags Zero. -/
def br_z_demo : VM :=
  mk_state (fun a => if a = 0x3000 then 0x0405 else 0)
    (fun r => if r = 8 then 0x3000 else if r = 9 then 2 else 0)

/-- Program `TRAP x25` (HALT) at 0x3000 followed by `ADD R0 R0 #1`. -/
def halt_demo : VM :=
  mk_state (fun a => if a = 0x3000 then 0xF025 else if a = 0x3001 then 0x1021 else 0)
    (fun r => if r = 8 then 0x3000 else if r = 9 then 2 else 0)

/-- Program `RTI` at 0x3000 followed by `ADD R0 R0 #1`. -/
def rti_demo : VM :=
  mk_state (fun a => if a = 0x3000 then 0x8000 else if a = 0x3001 then 0x1021 else 0)
    (fun r => if r = 8 then 0x3000 else if r = 9 then 2 else 0)

/-- Program with the reserved opcode (word 0xD000) at 0x3000 followed by
`ADD R0 R0 #1`. -/
def res_demo : VM :=
  mk_state (fun a => if a = 0x3000 then 0xD000 else if a = 0x3001 then 0x1021 else 0)
    (fun r => if r = 8 then 0x3000 else if r = 9 then 2 else 0)

/-- Program `AND R0 R1 R2` (word 0x5042) at 0x3000 with `R0 = 0`, `R1 = 5`,
`R2 = 3`, flags Zero. -/
def and_demo : VM :=
  mk_state (fun a => if a = 0x3000 then 0x5042 else 0)
    (fun r => if r = 1 then 5 else if r = 2 then 3 else if r = 8 then 0x3000
      else if r = 9 then 2 else 0)

/-- Program `ST R1, #2` (word 0x3202) at 0x3000 with `R1 = 5`, flags Negative. -/
def st_demo : VM :=
  mk_state (fun a => if a = 0x3000 then 0x3202 else 0)
    (fun r => if r = 1 then 5 else if r = 8 then 0x3000 else if r = 9 then 4 else 0)

/-- Program `ADD R3 R3 #7; ADD R3 R3 #-7` at 0xFFFF and 0x0000 with
`R3 = 0xFFFC`: the program counter and the intermediate sum both wrap. -/
def add_sub_demo : VM :=
  mk_state (fun a => if a = 0xFFFF then 0x16E7 else if a = 0 then 0x16F9 else 0)
    (fun r => if r = 3 then 0xFFFC else if r = 8 then 0xFFFF else if r = 9 then 2 else 0)

/-- Program of three stub instructions `NOT`, `JMP`, `TRAP x25` at 0x3000. -/
def stub_demo : VM :=
  mk_state
    (fun a => if a = 0x3000 then 0x903F else if a = 0x3001 then 0xC1C0
      else if a = 0x3002 then 0xF025 else 0)
    (fun r => if r = 0 then 7 else if r = 8 then 0x3000 else if r = 9 then 1 else 0)

/-! ## Start of `main` (lines 65-88) -/

/-- How `main` went on after the image loads: either `exit(code)` was called
before the run loop, or the loop was entered in state `entry` and `result` is
what at most `fuel` iterations of it produced. -/
inductive Outcome where
  | exited (code : Nat) : Outcome
  | looped (entry : VM) (result : Except Fault VM) : Outcome

/-- Record of one run of `main`: the paths handed to `read_image`, in call
order, and the outcome. -/
structure MainRun where
  calls : List String
  outcome : Outcome

/-- The loop `for (int j = 1; j < argc; ++j)` of `main` (lines 72-77) over the
image paths `argv[1..]`.  `read_image` is called by `main` but not defined in
lc3.c, so it is a parameter: `none` is a failed load (return value 0), `some`
is a successful load with the state it leaves.  The result is the list of paths
`read_image` was called on and the state after the last load, or `none` when a
load failed and `main` left through `exit(1)`. -/
def load_images (read_image : String → VM → Option VM) :
    List String → VM → List String × Option VM
  | [], s => ([], some s)
  | path :: rest, s =>
      match read_image path s with
      | none => ([path], none)
      | some s1 => (path :: (load_images read_image rest s1).1,
                    (load_images read_image rest s1).2)

/-- Source `main` (lines 65-199) on the argument vector `argv` (`argc` is its
length), started with the globals in state `s`; the run loop gets `fuel`
iterations.  The text written by `printf` is not part of the record. -/
def main (read_image : String → VM → Option VM) (fuel : Nat) (argv : List String)
    (s : VM) : MainRun :=
  if argv.length < 2 then
    { calls := [], outcome := .exited 2 }
  else
    match load_images read_image (argv.drop 1) s with
    | (calls, none) => { calls := calls, outcome := .exited 1 }
    | (calls, some s1) =>
        { calls := calls,
          outcome := .looped (main_setup s1) (run_loop fuel (main_setup s1)) }

/-- A loader for the examples: it knows the image `add.obj` (origin 0x3000,
one word 0x103F, `ADD R0 R0 #-1`) and the image `data.obj` (origin 0x4000, one
word 0x1234), and fails on every other path. -/
def demo_read_image (path : String) (s : VM) : Option VM :=
  if path = "add.obj" then
    some { s with memory := fun a => if a = 0x3000 then 0x103F else s.memory a }
  else if path = "data.obj" then
    some { s with memory := fun a => if a = 0x4000 then 0x1234 else s.memory a }
  else
    none

/-- A state as the process starts: memory and registers all zero. -/
def blank_state : VM :=
  mk_state (fun _ => 0) (fun _ => 0)

/-! ## Specification-side notions -/

/-- Two's-complement value of the `width`-bit pattern `n`: `n` itself below
`2 ^ (width - 1)`, and `n - 2 ^ width` from there on. -/
def signed_value (width n : Nat) : Int :=
  if n < 2 ^ (width - 1) then (n : Int) else (n : Int) - 2 ^ width

/-- The next `n` words the run loop fetches from state `s` all have an opcode
that is neither `OP_ADD` nor `OP_LDI`. -/
def stubs_only : Nat → VM → Bool
  | 0, _ => true
  | n + 1, s =>
      decide ((fetch s).1 >>> 12 ≠ OP_ADD) && decide ((fetch s).1 >>> 12 ≠ OP_LDI)
        && stubs_only n (fetch s).2

/-! ## Helper lemmas -/

theorem sign_extend_pos (x bc : Nat) (h : x.testBit (bc - 1) = false) :
    sign_extend x bc = x := by
  unfold sign_extend
  have : (x >>> (bc - 1)) &&& 1 = 0 := by
    rw [Nat.and_one_is_mod]
    simp [Nat.testBit, Nat.and_one_is_mod] at h
    omega
  simp [this]

theorem bit15_iff (v : Nat) (h : v < 65536) : v >>> 15 ≠ 0 ↔ v.testBit 15 = true := by
  rw [Nat.testBit_to_div_mod, Nat.shiftRight_eq_div_pow]
  simp only [decide_eq_true_eq]
  omega

theorem mem_read_reg (s : VM) (a : Nat) : (mem_read s a).2.reg = s.reg := by
  unfold mem_read
  simp only
  split
  · split <;> rfl
  · split <;> rfl

theorem mem_read_memory (s : VM) (a : Nat) : (mem_read s a).2.memory = s.memory := by
  unfold mem_read
  simp only
  split
  · split <;> rfl
  · split <;> rfl

theorem mem_read_running (s : VM) (a : Nat) : (mem_read s a).2.running = s.running := by
  unfold mem_read
  simp only
  split
  · split <;> rfl
  · split <;> rfl

theorem fetch_reg (s : VM) (i : Nat) :
    (fetch s).2.reg i = if i = R_PC then (s.reg R_PC + 1) % 65536 else s.reg i := by
  unfold fetch
  simp only [mem_read_reg, set_reg]

theorem fetch_memory (s : VM) : (fetch s).2.memory = s.memory := by
  unfold fetch
  simp only [mem_read_memory, set_reg]

theorem fetch_running (s : VM) : (fetch s).2.running = s.running := by
  unfold fetch
  simp only [mem_read_running, set_reg]

theorem update_flags_ok (s : VM) (r : Nat) (hr : r < R_COUNT) :
    ∃ c, update_flags s r = .ok (set_reg s R_COND c) ∧
      (c = FL_NEG ∨ c = FL_ZRO ∨ c = FL_POS) ∧
      (s.reg r < 65536 → flags_from (s.reg r) c) := by
  unfold update_flags load_reg
  rw [if_pos hr]
  simp only [bind, Except.bind, pure, Except.pure]
  by_cases h0 : s.reg r = 0
  · refine ⟨FL_ZRO, by rw [if_pos h0], by decide, ?_⟩
    intro _
    rw [h0]
    unfold flags_from
    decide
  · by_cases h15 : s.reg r >>> 15 ≠ 0
    · refine ⟨FL_NEG, by rw [if_neg h0, if_pos h15], by decide, ?_⟩
      intro hlt
      have hb := (bit15_iff _ hlt).1 h15
      unfold flags_from
      simp [hb, h0]
      decide
    · refine ⟨FL_POS, by rw [if_neg h0, if_neg h15], by decide, ?_⟩
      intro hlt
      have hb : (s.reg r).testBit 15 = false := by
        cases hc : (s.reg r).testBit 15
        · rfl
        · exact absurd ((bit15_iff _ hlt).2 hc) h15
      unfold flags_from
      simp [hb, h0]
      decide

theorem field3_lt (x : Nat) : x &&& 0x7 < 8 :=
  Nat.lt_succ_of_le Nat.and_le_right

theorem field3_lt_count (x : Nat) : x &&& 0x7 < R_COUNT :=
  Nat.lt_trans (field3_lt x) (by decide)

theorem field3_ne_pc (x : Nat) : x &&& 0x7 ≠ R_PC :=
  Nat.ne_of_lt (field3_lt x)

theorem field3_ne_cond (x : Nat) : x &&& 0x7 ≠ R_COND :=
  Nat.ne_of_lt (Nat.lt_trans (field3_lt x) (by decide))

theorem set_reg_same (s : VM) (r v : Nat) : (set_reg s r v).reg r = v := by
  simp only [set_reg, if_true]

theorem set_reg_other (s : VM) (r v i : Nat) (h : i ≠ r) : (set_reg s r v).reg i = s.reg i := by
  simp only [set_reg, if_neg h]

theorem exec_add_register (s : VM) (instr : Nat) (hm : (instr >>> 5) &&& 0x1 = 0) :
    ∃ c, exec_add s instr
        = .ok (set_reg (set_reg s ((instr >>> 9) &&& 0x7)
            ((s.reg ((instr >>> 6) &&& 0x7) + s.reg (instr &&& 0x7)) % 65536)) R_COND c) ∧
      flags_from ((s.reg ((instr >>> 6) &&& 0x7) + s.reg (instr &&& 0x7)) % 65536) c := by
  have b0 := field3_lt_count (instr >>> 9)
  have b1 := field3_lt_count (instr >>> 6)
  have b2 := field3_lt_count instr
  obtain ⟨c, hc, -, hfl⟩ := update_flags_ok
    (set_reg s ((instr >>> 9) &&& 0x7)
      ((s.reg ((instr >>> 6) &&& 0x7) + s.reg (instr &&& 0x7)) % 65536))
    ((instr >>> 9) &&& 0x7) b0
  refine ⟨c, ?_, ?_⟩
  · unfold exec_add
    simp only [hm, ne_eq, not_true_eq_false, if_false, load_reg, store_reg, if_pos b0, if_pos b1,
      if_pos b2, bind, Except.bind, hc]
  · rw [set_reg_same] at hfl
    exact hfl (Nat.mod_lt _ (by norm_num))

theorem exec_add_immediate (s : VM) (instr : Nat) (hm : (instr >>> 5) &&& 0x1 ≠ 0) :
    ∃ c, exec_add s instr
        = .ok (set_reg (set_reg s ((instr >>> 9) &&& 0x7)
            ((s.reg ((instr >>> 6) &&& 0x7) + sign_extend (instr &&& 0x1F) 5) % 65536))
            R_COND c) ∧
      flags_from ((s.reg ((instr >>> 6) &&& 0x7) + sign_extend (instr &&& 0x1F) 5) % 65536) c := by
  have b0 := field3_lt_count (instr >>> 9)
  have b1 := field3_lt_count (instr >>> 6)
  obtain ⟨c, hc, -, hfl⟩ := update_flags_ok
    (set_reg s ((instr >>> 9) &&& 0x7)
      ((s.reg ((instr >>> 6) &&& 0x7) + sign_extend (instr &&& 0x1F) 5) % 65536))
    ((instr >>> 9) &&& 0x7) b0
  refine ⟨c, ?_, ?_⟩
  · unfold exec_add
    simp only [hm, ne_eq, not_false_eq_true, if_true, load_reg, store_reg, if_pos b0, if_pos b1,
      bind, Except.bind, hc]
  · rw [set_reg_same] at hfl
    exact hfl (Nat.mod_lt _ (by norm_num))

theorem step_add (s : VM) (hop : (fetch s).1 >>> 12 = OP_ADD) :
    step s = exec_add (fetch s).2 (fetch s).1 := by
  unfold step
  simp only [hop, if_true]

theorem fetch_reg_field (s : VM) (x : Nat) : (fetch s).2.reg (x &&& 0x7) = s.reg (x &&& 0x7) := by
  rw [fetch_reg, if_neg (field3_ne_pc x)]

theorem step_other (s : VM) (h1 : (fetch s).1 >>> 12 ≠ OP_ADD)
    (h2 : (fetch s).1 >>> 12 ≠ OP_LDI) : step s = .ok (fetch s).2 := by
  unfold step
  simp only [if_neg h1, if_neg h2]

theorem step_ldi (s : VM) (hop : (fetch s).1 >>> 12 = OP_LDI) :
    step s = exec_ldi (fetch s).2 (fetch s).1 := by
  unfold step
  rw [if_neg (by rw [hop]; decide), if_pos hop]

theorem run_loop_succ (n : Nat) (s t : VM) (hr : s.running ≠ 0) (hs : step s = .ok t) :
    run_loop (n + 1) s = run_loop n t := by
  rw [run_loop, if_neg hr, hs]
  rfl

theorem ldi_r0_range (instr : Nat) (hop : instr >>> 12 = OP_LDI) :
    560 ≤ ldi_r0 instr ∧ ldi_r0 instr ≤ 609 := by
  unfold ldi_r0
  rw [Nat.shiftRight_eq_div_pow] at hop ⊢
  have h : (10 : Nat) = OP_LDI := rfl
  rw [← h] at hop
  have hq : 80 ≤ instr / 2 ^ 9 ∧ instr / 2 ^ 9 ≤ 87 := by omega
  rw [Nat.mod_eq_of_lt (by omega)]
  omega

theorem exec_ldi_faults (s : VM) (instr : Nat)
    (hop : instr >>> 12 = OP_LDI) : exec_ldi s instr = .error .reg_out_of_bounds := by
  have hr := ldi_r0_range instr hop
  have hb : ¬ ldi_r0 instr < R_COUNT := by
    have : R_COUNT = 10 := rfl
    omega
  unfold exec_ldi
  simp only [store_reg, if_neg hb, bind, Except.bind]

theorem update_flags_cond (s t : VM) (r : Nat) (h : update_flags s r = .ok t) :
    t.reg R_COND = FL_POS ∨ t.reg R_COND = FL_ZRO ∨ t.reg R_COND = FL_NEG := by
  by_cases hr : r < R_COUNT
  · obtain ⟨c, hc, hflag, -⟩ := update_flags_ok s r hr
    rw [hc] at h
    injection h with h
    subst h
    rw [set_reg_same]
    rcases hflag with h | h | h
    · exact Or.inr (Or.inr h)
    · exact Or.inr (Or.inl h)
    · exact Or.inl h
  · unfold update_flags load_reg at h
    simp only [if_neg hr, bind, Except.bind] at h
    cases h

theorem bind_update_flags_cond (x : Except Fault VM) (r : Nat) (t : VM)
    (h : (x.bind fun s1 => update_flags s1 r) = .ok t) :
    t.reg R_COND = FL_POS ∨ t.reg R_COND = FL_ZRO ∨ t.reg R_COND = FL_NEG := by
  cases x with
  | error e => cases h
  | ok s1 => exact update_flags_cond s1 t r h

theorem exec_add_cond (s t : VM) (instr : Nat) (h : exec_add s instr = .ok t) :
    t.reg R_COND = FL_POS ∨ t.reg R_COND = FL_ZRO ∨ t.reg R_COND = FL_NEG := by
  by_cases hm : (instr >>> 5) &&& 0x1 = 0
  · obtain ⟨c, hc, hfl⟩ := exec_add_register s instr hm
    rw [hc] at h
    injection h with h
    subst h
    rw [set_reg_same]
    rcases hfl.1 with h | h | h
    · exact Or.inr (Or.inr h)
    · exact Or.inr (Or.inl h)
    · exact Or.inl h
  · obtain ⟨c, hc, hfl⟩ := exec_add_immediate s instr hm
    rw [hc] at h
    injection h with h
    subst h
    rw [set_reg_same]
    rcases hfl.1 with h | h | h
    · exact Or.inr (Or.inr h)
    · exact Or.inr (Or.inl h)
    · exact Or.inl h

theorem exec_ldi_cond (s t : VM) (instr : Nat) (h : exec_ldi s instr = .ok t) :
    t.reg R_COND = FL_POS ∨ t.reg R_COND = FL_ZRO ∨ t.reg R_COND = FL_NEG :=
  bind_update_flags_cond _ _ t h

theorem step_cond (s t : VM) (h : step s = .ok t)
    (hc : s.reg R_COND = FL_POS ∨ s.reg R_COND = FL_ZRO ∨ s.reg R_COND = FL_NEG) :
    t.reg R_COND = FL_POS ∨ t.reg R_COND = FL_ZRO ∨ t.reg R_COND = FL_NEG := by
  by_cases h1 : (fetch s).1 >>> 12 = OP_ADD
  · rw [step_add s h1] at h
    exact exec_add_cond _ _ _ h
  · by_cases h2 : (fetch s).1 >>> 12 = OP_LDI
    · rw [step_ldi s h2] at h
      exact exec_ldi_cond _ _ _ h
    · rw [step_other s h1 h2] at h
      injection h with h
      subst h
      rw [fetch_reg, if_neg (by decide)]
      exact hc

theorem run_loop_cond (n : Nat) : ∀ (s t : VM), run_loop n s = .ok t →
    (s.reg R_COND = FL_POS ∨ s.reg R_COND = FL_ZRO ∨ s.reg R_COND = FL_NEG) →
    (t.reg R_COND = FL_POS ∨ t.reg R_COND = FL_ZRO ∨ t.reg R_COND = FL_NEG) := by
  induction n with
  | zero =>
    intro s t h hc
    rw [run_loop] at h
    injection h with h
    subst h
    exact hc
  | succ k ih =>
    intro s t h hc
    rw [run_loop] at h
    by_cases hr : s.running = 0
    · rw [if_pos hr] at h
      injection h with h
      subst h
      exact hc
    · rw [if_neg hr] at h
      cases hs : step s with
      | error e => rw [hs] at h; cases h
      | ok s1 =>
        rw [hs] at h
        exact ih s1 t h (step_cond s s1 hs hc)

theorem step_stub (s : VM) (h1 : (fetch s).1 >>> 12 ≠ OP_ADD)
    (h2 : (fetch s).1 >>> 12 ≠ OP_LDI) :
    ∃ t, step s = .ok t ∧ t.running = s.running ∧ t.memory = s.memory ∧
      t.reg R_PC = (s.reg R_PC + 1) % 65536 ∧ ∀ i, i ≠ R_PC → t.reg i = s.reg i := by
  refine ⟨_, step_other s h1 h2, fetch_running s, fetch_memory s, ?_, ?_⟩
  · rw [fetch_reg, if_pos rfl]
  · intro i hi
    rw [fetch_reg, if_neg hi]

theorem set_reg_memory (s : VM) (r v : Nat) : (set_reg s r v).memory = s.memory := rfl

theorem set_reg_running (s : VM) (r v : Nat) : (set_reg s r v).running = s.running := rfl

theorem exec_add_shape (s : VM) (instr : Nat) :
    ∃ v c, exec_add s instr = .ok (set_reg (set_reg s ((instr >>> 9) &&& 0x7) v) R_COND c) := by
  by_cases hm : (instr >>> 5) &&& 0x1 = 0
  · obtain ⟨c, hc, -⟩ := exec_add_register s instr hm
    exact ⟨_, c, hc⟩
  · obtain ⟨c, hc, -⟩ := exec_add_immediate s instr hm
    exact ⟨_, c, hc⟩

theorem stubs_only_run (n : Nat) : ∀ s : VM, stubs_only n s = true → s.running ≠ 0 →
    ∃ t, run_loop n s = .ok t ∧ t.running = s.running ∧ t.memory = s.memory ∧
      (∀ i, i ≠ R_PC → t.reg i = s.reg i) := by
  induction n with
  | zero =>
    intro s _ _
    exact ⟨s, rfl, rfl, rfl, fun _ _ => rfl⟩
  | succ k ih =>
    intro s h hr
    rw [stubs_only] at h
    simp only [Bool.and_eq_true, decide_eq_true_eq] at h
    obtain ⟨⟨h1, h2⟩, h3⟩ := h
    have hs := step_other s h1 h2
    have hr2 : (fetch s).2.running ≠ 0 := by rw [fetch_running]; exact hr
    obtain ⟨t, ht, hrun, hmem, hreg⟩ := ih (fetch s).2 h3 hr2
    refine ⟨t, ?_, ?_, ?_, ?_⟩
    · rw [run_loop_succ k s _ hr hs]; exact ht
    · rw [hrun, fetch_running]
    · rw [hmem, fetch_memory]
    · intro i hi
      rw [hreg i hi, fetch_reg, if_neg hi]

theorem load_images_all (read_image : String → VM → Option VM) (paths : List String) :
    ∀ s : VM, (∀ p ∈ paths, ∀ u, ∃ u1, read_image p u = some u1) →
      ∃ s1, load_images read_image paths s = (paths, some s1) := by
  induction paths with
  | nil => intro s _; exact ⟨s, rfl⟩
  | cons p ps ih =>
    intro s h
    obtain ⟨u1, hu1⟩ := h p (List.mem_cons_self p ps) s
    obtain ⟨s1, hs1⟩ := ih u1 (fun q hq u => h q (List.mem_cons_of_mem p hq) u)
    refine ⟨s1, ?_⟩
    rw [load_images, hu1]
    simp only [hs1]

theorem load_images_fail (read_image : String → VM → Option VM) (pre : List String)
    (p : String) (post : List String) :
    ∀ s : VM, (∀ q ∈ pre, ∀ u, ∃ u1, read_image q u = some u1) →
      (∀ u, read_image p u = none) →
      load_images read_image (pre ++ p :: post) s = (pre ++ [p], none) := by
  induction pre with
  | nil =>
    intro s _ hf
    rw [List.nil_append, load_images, hf s]
    rfl
  | cons q qs ih =>
    intro s h hf
    obtain ⟨u1, hu1⟩ := h q (List.mem_cons_self q qs) s
    have hrec := ih u1 (fun r hr u => h r (List.mem_cons_of_mem q hr) u) hf
    rw [List.cons_append, load_images, hu1]
    simp only [hrec, List.cons_append]

theorem fetch_at_start (s : VM) (h : s.reg R_PC = PC_START) :
    (fetch s).1 = s.memory 0x3000 := by
  unfold fetch
  rw [h]
  rfl

theorem or_shifted_ones (x bc : Nat) (hx : x < 2 ^ bc) :
    x ||| (0xFFFF <<< bc) = 2 ^ bc * 0xFFFF + x := by
  rw [Nat.mul_add_lt_is_or hx, Nat.or_comm, Nat.shiftLeft_eq, Nat.mul_comm]

theorem sign_extend_arith (bc x : Nat) (hbc : bc = 5 ∨ bc = 6 ∨ bc = 9 ∨ bc = 11)
    (hx : x < 2 ^ bc) :
    sign_extend x bc = if x < 2 ^ (bc - 1) then x else x + 65536 - 2 ^ bc := by
  unfold sign_extend
  rw [or_shifted_ones x bc hx, Nat.and_one_is_mod, Nat.shiftRight_eq_div_pow]
  rcases hbc with h | h | h | h <;> subst h <;> norm_num at hx ⊢ <;> split <;> split <;> omega

theorem update_flags_flat_cond (overlay : Nat → Option Nat) (s : VM) (r : Nat) :
    (update_flags_flat overlay s r).reg R_COND = FL_POS ∨
    (update_flags_flat overlay s r).reg R_COND = FL_ZRO ∨
    (update_flags_flat overlay s r).reg R_COND = FL_NEG := by
  unfold update_flags_flat
  split
  · exact Or.inr (Or.inl (set_reg_same _ _ _))
  · split
    · exact Or.inr (Or.inr (set_reg_same _ _ _))
    · exact Or.inl (set_reg_same _ _ _)

theorem step_flat_cond (overlay : Nat → Option Nat) (s : VM)
    (hc : s.reg R_COND = FL_POS ∨ s.reg R_COND = FL_ZRO ∨ s.reg R_COND = FL_NEG) :
    (step_flat overlay s).reg R_COND = FL_POS ∨
    (step_flat overlay s).reg R_COND = FL_ZRO ∨
    (step_flat overlay s).reg R_COND = FL_NEG := by
  unfold step_flat
  simp only
  split
  · unfold exec_add_flat
    simp only
    split <;> exact update_flags_flat_cond _ _ _
  · split
    · exact update_flags_flat_cond _ _ _
    · rw [fetch_reg, if_neg (by decide)]
      exact hc

theorem run_flat_cond (overlay : Nat → Option Nat) (n : Nat) : ∀ s : VM,
    (s.reg R_COND = FL_POS ∨ s.reg R_COND = FL_ZRO ∨ s.reg R_COND = FL_NEG) →
    ((run_flat overlay n s).reg R_COND = FL_POS ∨
     (run_flat overlay n s).reg R_COND = FL_ZRO ∨
     (run_flat overlay n s).reg R_COND = FL_NEG) := by
  induction n with
  | zero => intro s hc; exact hc
  | succ k ih =>
    intro s hc
    rw [run_flat]
    split
    · exact hc
    · exact ih _ (step_flat_cond overlay s hc)

theorem load_flat_of_load_reg (overlay : Nat → Option Nat) (s : VM) (r x : Nat)
    (h : load_reg s r = .ok x) : load_flat overlay s r = x := by
  unfold load_reg at h
  unfold load_flat
  by_cases hr : r < R_COUNT
  · rw [if_pos hr] at h ⊢
    injection h
  · rw [if_neg hr] at h
    cases h

theorem store_flat_of_store_reg (overlay : Nat → Option Nat) (s t : VM) (r v : Nat)
    (h : store_reg s r v = .ok t) : store_flat overlay s r v = t := by
  unfold store_reg at h
  unfold store_flat
  by_cases hr : r < R_COUNT
  · rw [if_pos hr] at h ⊢
    injection h
  · rw [if_neg hr] at h
    cases h

theorem update_flags_flat_of_update_flags (overlay : Nat → Option Nat) (s t : VM) (r : Nat)
    (h : update_flags s r = .ok t) : update_flags_flat overlay s r = t := by
  unfold update_flags load_reg at h
  unfold update_flags_flat load_flat
  by_cases hr : r < R_COUNT
  · simp only [if_pos hr, bind, Except.bind, pure, Except.pure] at h ⊢
    split at h
    · rename_i h0
      rw [if_pos h0]
      injection h
    · rename_i h0
      rw [if_neg h0]
      split at h
      · rename_i h1
        rw [if_pos h1]
        injection h
      · rename_i h1
        rw [if_neg h1]
        injection h
  · simp only [if_neg hr, bind, Except.bind] at h
    cases h

theorem exec_add_flat_of_exec_add (overlay : Nat → Option Nat) (s t : VM) (instr : Nat)
    (h : exec_add s instr = .ok t) : exec_add_flat overlay s instr = t := by
  have b0 := field3_lt_count (instr >>> 9)
  have b1 := field3_lt_count (instr >>> 6)
  have b2 := field3_lt_count instr
  unfold exec_add at h
  unfold exec_add_flat
  simp only [load_reg, store_reg, if_pos b0, if_pos b1, if_pos b2, bind, Except.bind] at h
  simp only [load_flat, store_flat, if_pos b0, if_pos b1, if_pos b2]
  split at h
  · rename_i hm
    rw [if_pos hm]
    exact update_flags_flat_of_update_flags overlay _ _ _ h
  · rename_i hm
    rw [if_neg hm]
    exact update_flags_flat_of_update_flags overlay _ _ _ h

theorem exec_ldi_flat_of_exec_ldi (overlay : Nat → Option Nat) (s t : VM) (instr : Nat)
    (h : exec_ldi s instr = .ok t) : exec_ldi_flat overlay s instr = t := by
  unfold exec_ldi at h
  unfold exec_ldi_flat
  simp only [bind, Except.bind] at h
  simp only
  split at h
  · cases h
  · rename_i s1 hs1
    rw [store_flat_of_store_reg overlay _ _ _ _ hs1]
    exact update_flags_flat_of_update_flags overlay _ _ _ h

theorem step_flat_of_step (overlay : Nat → Option Nat) (s t : VM) (h : step s = .ok t) :
    step_flat overlay s = t := by
  unfold step at h
  unfold step_flat
  simp only at h ⊢
  split at h
  · rename_i h1
    rw [if_pos h1]
    exact exec_add_flat_of_exec_add overlay _ _ _ h
  · rename_i h1
    rw [if_neg h1]
    split at h
    · rename_i h2
      rw [if_pos h2]
      exact exec_ldi_flat_of_exec_ldi overlay _ _ _ h
    · rename_i h2
      rw [if_neg h2]
      injection h

theorem run_flat_of_run_loop (overlay : Nat → Option Nat) (n : Nat) : ∀ s t : VM,
    run_loop n s = .ok t → run_flat overlay n s = t := by
  induction n with
  | zero =>
    intro s t h
    rw [run_loop] at h
    injection h
  | succ k ih =>
    intro s t h
    rw [run_loop] at h
    rw [run_flat]
    by_cases hr : s.running = 0
    · rw [if_pos hr] at h ⊢
      injection h
    · rw [if_neg hr] at h ⊢
      cases hs : step s with
      | error e => rw [hs] at h; cases h
      | ok s1 =>
        rw [hs] at h
        rw [step_flat_of_step overlay s s1 hs]
        exact ih s1 t h

/-! ## Sign extension and condition flags -/

/-- C1: for a bit count of 5, 6, 9 or 11 and a value `x` below `2 ^ bit_count`,
`sign_extend` returns a 16-bit word that agrees with `x` below position
`bit_count` and has every bit from `bit_count` to 15 set when bit
`bit_count - 1` of `x` is 1, and returns `x` itself when that bit is 0; and
`sign_extend 0x1F 5 = 0xFFFF`, `sign_extend 0x0F 5 = 0x000F`. -/
theorem sign_extend_fills_high_bits (bc x : Nat)
    (hbc : bc = 5 ∨ bc = 6 ∨ bc = 9 ∨ bc = 11) (hx : x < 2 ^ bc) :
    (x.testBit (bc - 1) = true →
        sign_extend x bc < 65536 ∧
        ∀ i, (sign_extend x bc).testBit i
              = if i < bc then x.testBit i else decide (i < 16)) ∧
    (x.testBit (bc - 1) = false → sign_extend x bc = x) ∧
    sign_extend 0x1F 5 = 0xFFFF ∧ sign_extend 0x0F 5 = 0x000F := by
  refine ⟨?_, sign_extend_pos x bc, by decide, by decide⟩
  intro hb
  have hc : (x >>> (bc - 1)) &&& 1 ≠ 0 := by
    simp [Nat.testBit, Nat.and_comm] at hb
    simpa [Nat.and_comm] using hb
  have he : sign_extend x bc = (x ||| (0xFFFF <<< bc)) % 65536 := by
    unfold sign_extend; rw [if_pos hc]
  refine ⟨by rw [he]; exact Nat.mod_lt _ (by norm_num), ?_⟩
  intro i
  rw [he, show (65536 : Nat) = 2 ^ 16 by norm_num, Nat.testBit_mod_two_pow, Nat.testBit_or,
    Nat.testBit_shiftLeft, show (0xFFFF : Nat) = 2 ^ 16 - 1 by norm_num,
    Nat.testBit_two_pow_sub_one]
  by_cases hi : i < bc
  · have : ¬ (i ≥ bc) := by omega
    have h16 : i < 16 := by rcases hbc with h | h | h | h <;> omega
    simp [hi, this, h16]
  · have hx0 : x.testBit i = false :=
      Nat.testBit_lt_two_pow (lt_of_lt_of_le hx (Nat.pow_le_pow_right (by norm_num) (by omega)))
    have : i ≥ bc := by omega
    by_cases h16 : i < 16
    · have : i - bc < 16 := by omega
      simp [hi, hx0, h16, *]
    · simp [hi, hx0, h16]

theorem sign_extend_fills_high_bits_witness :
    sign_extend 0x15 5 < 65536 ∧ (sign_extend 0x15 5).testBit 1 = false ∧
      (sign_extend 0x15 5).testBit 9 = true ∧ (sign_extend 0x15 5).testBit 16 = false := by
  have h := (sign_extend_fills_high_bits 5 0x15 (Or.inl rfl) (by decide)).1 (by decide)
  refine ⟨h.1, ?_, ?_, ?_⟩
  · rw [h.2 1]; decide
  · rw [h.2 9]; decide
  · rw [h.2 16]; decide

/-- C2: for a register index `r` in 0..7 holding the 16-bit value `v`,
`update_flags r` succeeds and leaves in the condition register exactly one of
Negative, Zero, Positive: Negative iff bit 15 of `v` is 1, Zero iff `v = 0`,
Positive otherwise. -/
theorem update_flags_exactly_one (s : VM) (r v : Nat) (hr : r < 8) (hv : s.reg r = v)
    (h16 : v < 65536) :
    ∃ t, update_flags s r = .ok t ∧ flags_from v (t.reg R_COND) := by
  obtain ⟨c, hc, -, hfl⟩ := update_flags_ok s r (Nat.lt_trans hr (by decide))
  refine ⟨_, hc, ?_⟩
  rw [set_reg_same, ← hv]
  exact hfl (by rw [hv]; exact h16)

theorem update_flags_exactly_one_witness :
    ∃ t, update_flags add_reg_demo 1 = .ok t ∧ flags_from 5 (t.reg R_COND) :=
  update_flags_exactly_one add_reg_demo 1 5 (by decide) rfl (by decide)

/-! ## ADD -/

/-- C3: when the fetched word is an ADD in register mode (opcode 0001, bit 5
clear), one step succeeds, sets `reg[DR]` to `(reg[SR1] + reg[SR2]) mod 2^16`
computed from the registers before the step, and sets the condition register
from the new `reg[DR]`; with `R1 = 5`, `R2 = 3` the word 0x1042 (`ADD R0 R1 R2`)
gives `R0 = 8` and flags Positive. -/
theorem step_add_register_mode (s : VM) (instr : Nat) (hf : (fetch s).1 = instr)
    (hop : instr >>> 12 = OP_ADD) (hmode : (instr >>> 5) &&& 0x1 = 0) :
    ∃ t, step s = .ok t ∧
      t.reg ((instr >>> 9) &&& 0x7)
        = (s.reg ((instr >>> 6) &&& 0x7) + s.reg (instr &&& 0x7)) % 65536 ∧
      flags_from (t.reg ((instr >>> 9) &&& 0x7)) (t.reg R_COND) ∧
      (instr = 0x1042 → s.reg R_R1 = 5 → s.reg R_R2 = 3 →
        t.reg R_R0 = 8 ∧ t.reg R_COND = FL_POS) := by
  obtain ⟨c, hc, hfl⟩ := exec_add_register (fetch s).2 instr hmode
  rw [fetch_reg_field, fetch_reg_field] at hc hfl
  have hstep : step s = exec_add (fetch s).2 instr := by
    rw [← hf]; exact step_add s (by rw [hf]; exact hop)
  have hd : ∀ u : VM, (set_reg (set_reg u ((instr >>> 9) &&& 0x7)
      ((s.reg ((instr >>> 6) &&& 0x7) + s.reg (instr &&& 0x7)) % 65536)) R_COND c).reg
        ((instr >>> 9) &&& 0x7)
      = (s.reg ((instr >>> 6) &&& 0x7) + s.reg (instr &&& 0x7)) % 65536 := by
    intro u
    rw [set_reg_other _ _ _ _ (field3_ne_cond _), set_reg_same]
  refine ⟨_, hstep.trans hc, hd _, ?_, ?_⟩
  · rw [hd, set_reg_same]; exact hfl
  · intro hi hr1 hr2
    subst hi
    have hd0 := hd (fetch s).2
    have e6 : (0x1042 >>> 6) &&& 0x7 = R_R1 := by decide
    have e0 : 0x1042 &&& 0x7 = R_R2 := by decide
    have e9 : (0x1042 >>> 9) &&& 0x7 = R_R0 := by decide
    rw [e6, e0, hr1, hr2] at hfl
    simp only [e6, e0, e9, hr1, hr2] at hd0 ⊢
    refine ⟨hd0, ?_⟩
    rw [set_reg_same]
    exact hfl.2.2.2.2 ⟨by decide, by decide⟩

theorem step_add_register_mode_witness :
    ∃ t, step add_reg_demo = .ok t ∧ t.reg R_R0 = 8 ∧ t.reg R_COND = FL_POS := by
  obtain ⟨t, ht, -, -, hp⟩ :=
    step_add_register_mode add_reg_demo 0x1042 rfl (by decide) (by decide)
  exact ⟨t, ht, hp rfl rfl rfl⟩

/-- C4: when the fetched word is an ADD in immediate mode (opcode 0001, bit 5
set), one step succeeds, sets `reg[DR]` to
`(reg[SR1] + sign_extend(imm5, 5)) mod 2^16` and sets the condition register
from the new `reg[DR]`; with `R0 = 0` the word 0x103F (`ADD R0 R0 #-1`) gives
`R0 = 0xFFFF` and flags Negative. -/
theorem step_add_immediate_mode (s : VM) (instr : Nat) (hf : (fetch s).1 = instr)
    (hop : instr >>> 12 = OP_ADD) (hmode : (instr >>> 5) &&& 0x1 = 1) :
    ∃ t, step s = .ok t ∧
      t.reg ((instr >>> 9) &&& 0x7)
        = (s.reg ((instr >>> 6) &&& 0x7) + sign_extend (instr &&& 0x1F) 5) % 65536 ∧
      flags_from (t.reg ((instr >>> 9) &&& 0x7)) (t.reg R_COND) ∧
      (instr = 0x103F → s.reg R_R0 = 0 →
        t.reg R_R0 = 0xFFFF ∧ t.reg R_COND = FL_NEG) := by
  obtain ⟨c, hc, hfl⟩ := exec_add_immediate (fetch s).2 instr (by rw [hmode]; decide)
  rw [fetch_reg_field] at hc hfl
  have hstep : step s = exec_add (fetch s).2 instr := by
    rw [← hf]; exact step_add s (by rw [hf]; exact hop)
  have hd : ∀ u : VM, (set_reg (set_reg u ((instr >>> 9) &&& 0x7)
      ((s.reg ((instr >>> 6) &&& 0x7) + sign_extend (instr &&& 0x1F) 5) % 65536)) R_COND c).reg
        ((instr >>> 9) &&& 0x7)
      = (s.reg ((instr >>> 6) &&& 0x7) + sign_extend (instr &&& 0x1F) 5) % 65536 := by
    intro u
    rw [set_reg_other _ _ _ _ (field3_ne_cond _), set_reg_same]
  refine ⟨_, hstep.trans hc, hd _, ?_, ?_⟩
  · rw [hd, set_reg_same]; exact hfl
  · intro hi hr0
    subst hi
    have hd0 := hd (fetch s).2
    have e6 : (0x103F >>> 6) &&& 0x7 = R_R0 := by decide
    have e9 : (0x103F >>> 9) &&& 0x7 = R_R0 := by decide
    have ei : sign_extend (0x103F &&& 0x1F) 5 = 0xFFFF := by decide
    rw [e6, ei, hr0] at hfl
    simp only [e6, e9, ei, hr0] at hd0 ⊢
    refine ⟨hd0, ?_⟩
    rw [set_reg_same]
    exact hfl.2.1.2 (by decide)

theorem step_add_immediate_mode_witness :
    ∃ t, step add_imm_demo = .ok t ∧ t.reg R_R0 = 0xFFFF ∧ t.reg R_COND = FL_NEG := by
  obtain ⟨t, ht, -, -, hp⟩ :=
    step_add_immediate_mode add_imm_demo 0x103F rfl (by decide) (by decide)
  exact ⟨t, ht, hp rfl rfl⟩

/-! ## LDI -/

/-- C5 (defect in the code): on the LDI round trip of the spec (`LDI R0, #1` at
0x3000, pointer 0x4000 at 0x3002, value 0x1234 at 0x4000) the two reads would
deliver 0x1234, but the destination index is `(instr >> 9) * 0x7 = 560`, so
the step accesses `reg[560]`, outside the array, and `R0` is never written. -/
theorem ldi_round_trip_faults :
    (fetch ldi_demo).1 = 0xA001 ∧
    (mem_read ldi_demo (0x3001 + sign_extend (0xA001 &&& 0x1FF) 9)).1 = 0x4000 ∧
    (mem_read ldi_demo 0x4000).1 = 0x1234 ∧
    ldi_r0 0xA001 = 560 ∧
    step ldi_demo = .error .reg_out_of_bounds := by
  refine ⟨by decide, by decide, by decide, by decide, ?_⟩
  rw [step_ldi ldi_demo (by decide)]
  exact exec_ldi_faults _ _ (by decide)

/-- C6 (defect in the code): for every word dispatched to the LDI handler the
destination index is the product `(instr >> 9) * 0x7`, not the masked field
`(instr >> 9) & 0x7`; it is never below `R_COUNT`, so the handler always
indexes `reg` out of bounds. -/
theorem ldi_index_not_masked (instr : Nat) (hop : instr >>> 12 = OP_LDI) :
    ldi_r0 instr = (instr >>> 9) * 0x7 ∧
    ldi_r0 instr ≠ (instr >>> 9) &&& 0x7 ∧
    ¬ ldi_r0 instr < R_COUNT ∧
    ∀ s : VM, exec_ldi s instr = .error .reg_out_of_bounds := by
  have hr := ldi_r0_range instr hop
  have hm := field3_lt (instr >>> 9)
  have hc : R_COUNT = 10 := rfl
  refine ⟨?_, by omega, by omega, fun s => exec_ldi_faults s instr hop⟩
  have h10 : OP_LDI = 10 := rfl
  rw [h10] at hop
  unfold ldi_r0
  exact Nat.mod_eq_of_lt (by omega)

theorem ldi_index_not_masked_witness :
    ldi_r0 0xA000 = (0xA000 >>> 9) * 0x7 ∧ ldi_r0 0xA000 ≠ (0xA000 >>> 9) &&& 0x7 ∧
      ¬ ldi_r0 0xA000 < R_COUNT ∧
      ∀ s : VM, exec_ldi s 0xA000 = .error .reg_out_of_bounds :=
  ldi_index_not_masked 0xA000 (by decide)

/-! ## Run loop -/

/-- C7: in every state reached from the initial run state (`main_setup` of an
arbitrary state: COND = Zero, PC = 0x3000, any memory and registers) by any
number of loop iterations, the condition register holds exactly one of
Positive (1), Zero (2), Negative (4).  The run is the one in a flat address
space, for every placement `overlay` of the slot behind `reg`, so it goes on
through every LDI; and wherever the bounds-checked loop completes, its final
state is the state of that run. -/
theorem cond_register_invariant (overlay : Nat → Option Nat) (s0 : VM) (n : Nat) :
    ((run_flat overlay n (main_setup s0)).reg R_COND = FL_POS ∨
     (run_flat overlay n (main_setup s0)).reg R_COND = FL_ZRO ∨
     (run_flat overlay n (main_setup s0)).reg R_COND = FL_NEG) ∧
    ∀ t, run_loop n (main_setup s0) = .ok t → run_flat overlay n (main_setup s0) = t :=
  ⟨run_flat_cond overlay n (main_setup s0) (Or.inr (Or.inl rfl)),
    fun t h => run_flat_of_run_loop overlay n (main_setup s0) t h⟩

theorem cond_register_invariant_witness :
    (run_flat (fun _ => none) 2 (main_setup ldi_add_demo)).reg R_PC = 0x3002 ∧
    (run_flat (fun _ => none) 2 (main_setup ldi_add_demo)).reg R_R1 = 1 ∧
    (run_flat (fun _ => none) 1 (main_setup ldi_add_demo)).reg R_COND = FL_NEG ∧
    (run_flat (fun r => if r = 560 then some 0x3001 else none) 2
      (main_setup ldi_add_demo)).reg R_PC = 0x3002 ∧
    ((run_flat (fun _ => none) 2 (main_setup ldi_add_demo)).reg R_COND = FL_POS ∨
     (run_flat (fun _ => none) 2 (main_setup ldi_add_demo)).reg R_COND = FL_ZRO ∨
     (run_flat (fun _ => none) 2 (main_setup ldi_add_demo)).reg R_COND = FL_NEG) :=
  ⟨by decide, by decide, by decide, by decide,
    (cond_register_invariant (fun _ => none) ldi_add_demo 2).1⟩

/-! ## Stub handlers -/

/-- C8 (defect in the code): with flags Zero and PC = 0x3000, the word 0x0405
(`BRz #5`) has to leave PC = 0x3006, but `case OP_BR` is an empty `break` and
one step leaves PC = 0x3001. -/
theorem br_z_offset_not_applied :
    br_z_demo.reg R_COND = FL_ZRO ∧ br_z_demo.reg R_PC = 0x3000 ∧
    (fetch br_z_demo).1 = 0x0405 ∧
    (0x3000 + 1 + sign_extend (0x0405 &&& 0x1FF) 9) % 65536 = 0x3006 ∧
    ∃ t, step br_z_demo = .ok t ∧ t.reg R_PC = 0x3001 ∧ t.reg R_PC ≠ 0x3006 :=
  ⟨rfl, rfl, by decide, by decide, _, rfl, by decide, by decide⟩

/-- C9 (defect in the code): one step on the word 0xF025 (`TRAP x25`, HALT) has
to stop the run loop, but `case OP_TRAP` is an empty `break` and nothing ever
clears `running`: it is still 1 after the step, and the loop goes on to execute
the `ADD R0 R0 #1` that follows. -/
theorem halt_does_not_stop :
    (fetch halt_demo).1 = 0xF025 ∧
    halt_demo.reg R_R0 = 0 ∧
    (∃ t, step halt_demo = .ok t ∧ t.running ≠ 0 ∧ t.reg R_PC = 0x3001) ∧
    (∃ u, run_loop 2 halt_demo = .ok u ∧ u.reg R_R0 = 1 ∧ u.reg R_PC = 0x3002) :=
  ⟨by decide, rfl, ⟨_, rfl, by decide, by decide⟩, ⟨_, rfl, by decide, by decide⟩⟩

/-- C10 fails as stated: one step on the word 0x8000 (RTI) is no fault and
leaves `running` set, and the loop goes on to execute the `ADD R0 R0 #1` that
follows it. -/
theorem rti_is_silent_no_op :
    (fetch rti_demo).1 >>> 12 = OP_RTI ∧
    rti_demo.reg R_R0 = 0 ∧
    (∃ t, step rti_demo = .ok t ∧ t.running ≠ 0 ∧ t.reg R_PC = 0x3001) ∧
    (∃ u, run_loop 2 rti_demo = .ok u ∧ u.reg R_R0 = 1 ∧ u.reg R_PC = 0x3002) :=
  ⟨by decide, rfl, ⟨_, rfl, by decide, by decide⟩, ⟨_, rfl, by decide, by decide⟩⟩

/-- C10 (amended): when the fetched word has opcode 1000 (RTI) or 1101
(reserved), one step succeeds without a fault and changes nothing but the PC,
which advances by one: `running`, memory and every other register keep their
values, and a running loop goes on with the next iteration. -/
theorem step_rti_res_is_stub (s : VM) (instr : Nat) (hf : (fetch s).1 = instr)
    (hop : instr >>> 12 = OP_RTI ∨ instr >>> 12 = OP_RES) :
    ∃ t, step s = .ok t ∧ t.running = s.running ∧ t.memory = s.memory ∧
      t.reg R_PC = (s.reg R_PC + 1) % 65536 ∧ (∀ i, i ≠ R_PC → t.reg i = s.reg i) ∧
      ∀ n, s.running ≠ 0 → run_loop (n + 1) s = run_loop n t := by
  have h1 : (fetch s).1 >>> 12 ≠ OP_ADD := by
    rw [hf]; rcases hop with h | h <;> rw [h] <;> decide
  have h2 : (fetch s).1 >>> 12 ≠ OP_LDI := by
    rw [hf]; rcases hop with h | h <;> rw [h] <;> decide
  obtain ⟨t, ht, hrun, hmem, hpc, hreg⟩ := step_stub s h1 h2
  exact ⟨t, ht, hrun, hmem, hpc, hreg, fun n hr => run_loop_succ n s t hr ht⟩

theorem step_rti_res_is_stub_witness :
    (∃ t, step rti_demo = .ok t ∧ t.running = 1 ∧ t.reg R_PC = 0x3001 ∧
      run_loop 2 rti_demo = run_loop 1 t) ∧
    (∃ t, step res_demo = .ok t ∧ t.running = 1 ∧ t.reg R_PC = 0x3001 ∧
      run_loop 2 res_demo = run_loop 1 t) := by
  obtain ⟨t, ht, hrun, -, hpc, -, hloop⟩ :=
    step_rti_res_is_stub rti_demo 0x8000 (by decide) (Or.inl (by decide))
  obtain ⟨u, hu, hrun2, -, hpc2, -, hloop2⟩ :=
    step_rti_res_is_stub res_demo 0xD000 (by decide) (Or.inr (by decide))
  exact ⟨⟨t, ht, hrun, hpc, hloop 1 (by decide)⟩,
    ⟨u, hu, hrun2, hpc2, hloop2 1 (by decide)⟩⟩

/-! ## AND and the store, jump and branch stubs -/

/-- C11 (defect in the code): with `R0 = 0`, `R1 = 5`, `R2 = 3` and flags Zero,
the word 0x5042 (`AND R0 R1 R2`) has to give `R0 = 5 AND 3 = 1` and flags
Positive, but `case OP_AND` is an empty `break` and one step leaves `R0 = 0`
and the flags Zero. -/
theorem and_leaves_destination :
    (fetch and_demo).1 = 0x5042 ∧ (0x5042 >>> 12 = OP_AND) ∧
    and_demo.reg R_R1 &&& and_demo.reg R_R2 = 1 ∧
    ∃ t, step and_demo = .ok t ∧ t.reg R_R0 = 0 ∧ t.reg R_R0 ≠ 1 ∧
      t.reg R_COND = FL_ZRO ∧ t.reg R_COND ≠ FL_POS :=
  ⟨by decide, by decide, by decide, _, rfl, by decide, by decide, by decide, by decide⟩

/-- C12: when the fetched word has opcode ST, STI, STR, JMP, BR or JSR, one
step succeeds and leaves the condition register exactly as it was. -/
theorem step_store_jump_keeps_cond (s : VM) (instr : Nat) (hf : (fetch s).1 = instr)
    (hop : instr >>> 12 = OP_ST ∨ instr >>> 12 = OP_STI ∨ instr >>> 12 = OP_STR ∨
      instr >>> 12 = OP_JMP ∨ instr >>> 12 = OP_BR ∨ instr >>> 12 = OP_JSR) :
    ∃ t, step s = .ok t ∧ t.reg R_COND = s.reg R_COND := by
  have h1 : (fetch s).1 >>> 12 ≠ OP_ADD := by
    rw [hf]; rcases hop with h | h | h | h | h | h <;> rw [h] <;> decide
  have h2 : (fetch s).1 >>> 12 ≠ OP_LDI := by
    rw [hf]; rcases hop with h | h | h | h | h | h <;> rw [h] <;> decide
  obtain ⟨t, ht, -, -, -, hreg⟩ := step_stub s h1 h2
  exact ⟨t, ht, hreg R_COND (by decide)⟩

theorem step_store_jump_keeps_cond_witness :
    ∃ t, step st_demo = .ok t ∧ t.reg R_COND = FL_NEG :=
  step_store_jump_keeps_cond st_demo 0x3202 (by decide) (Or.inl (by decide))

/-! ## Start of `main` -/

/-- C13: for a program name followed by a non-empty list of image paths on
which every load succeeds, and for every state of the globals before, `main`
calls `read_image` on every path in order and enters the run loop with the
condition register equal to `FL_ZRO` (only Z set) and PC equal to 0x3000, so
that the first fetched word is `memory[0x3000]`. -/
theorem main_enters_loop_at_start (read_image : String → VM → Option VM) (fuel : Nat)
    (prog : String) (paths : List String) (s : VM) (hne : paths ≠ [])
    (hok : ∀ p ∈ paths, ∀ u, ∃ u1, read_image p u = some u1) :
    ∃ entry, main read_image fuel (prog :: paths) s
        = { calls := paths, outcome := .looped entry (run_loop fuel entry) } ∧
      entry.reg R_COND = FL_ZRO ∧ entry.reg R_PC = 0x3000 ∧ entry.running = 1 ∧
      (fetch entry).1 = entry.memory 0x3000 := by
  obtain ⟨s1, hs1⟩ := load_images_all read_image paths s hok
  have hlen : ¬ (prog :: paths).length < 2 := by
    cases paths with
    | nil => exact absurd rfl hne
    | cons p ps => simp
  refine ⟨main_setup s1, ?_, rfl, rfl, rfl, fetch_at_start _ rfl⟩
  unfold main
  rw [if_neg hlen]
  simp only [List.drop_succ_cons, List.drop_zero, hs1]

theorem main_enters_loop_at_start_witness :
    ∃ entry, main demo_read_image 1 ["lc3", "add.obj", "data.obj"] blank_state
        = { calls := ["add.obj", "data.obj"],
            outcome := .looped entry (run_loop 1 entry) } ∧
      entry.reg R_COND = FL_ZRO ∧ entry.reg R_PC = 0x3000 ∧ entry.running = 1 ∧
      (fetch entry).1 = entry.memory 0x3000 ∧ entry.memory 0x3000 = 0x103F := by
  obtain ⟨entry, hm, hc, hpc, hr, hf⟩ :=
    main_enters_loop_at_start demo_read_image 1 "lc3" ["add.obj", "data.obj"] blank_state
      (by decide)
      (by
        intro p hp u
        simp only [List.mem_cons, List.mem_singleton, List.not_mem_nil, or_false] at hp
        rcases hp with h | h
        · subst h; exact ⟨_, rfl⟩
        · subst h; exact ⟨_, rfl⟩)
  refine ⟨entry, hm, hc, hpc, hr, hf, ?_⟩
  have hm2 : main demo_read_image 1 ["lc3", "add.obj", "data.obj"] blank_state
      = { calls := ["add.obj", "data.obj"],
          outcome := .looped
            (main_setup ((load_images demo_read_image ["add.obj", "data.obj"] blank_state).2.getD
              blank_state))
            (run_loop 1 (main_setup
              ((load_images demo_read_image ["add.obj", "data.obj"] blank_state).2.getD
                blank_state))) } := rfl
  rw [hm2] at hm
  injection hm with _ ho
  injection ho with he _
  rw [← he]
  decide

/-- C15: when `read_image` succeeds on every path before position `j` and
fails on the path at position `j`, `main` stops with `exit(1)`: the calls of
`read_image` are exactly the paths up to and including position `j`, none of
the later paths is loaded, and the run loop is never entered, so no
instruction is fetched or executed. -/
theorem main_exits_on_failed_load (read_image : String → VM → Option VM) (fuel : Nat)
    (prog : String) (pre : List String) (p : String) (post : List String) (s : VM)
    (hpre : ∀ q ∈ pre, ∀ u, ∃ u1, read_image q u = some u1)
    (hfail : ∀ u, read_image p u = none) :
    main read_image fuel (prog :: (pre ++ p :: post)) s
      = { calls := pre ++ [p], outcome := .exited 1 } := by
  have hl := load_images_fail read_image pre p post s hpre hfail
  have hlen : ¬ (prog :: (pre ++ p :: post)).length < 2 := by
    simp only [List.length_cons, List.length_append]
    omega
  unfold main
  rw [if_neg hlen]
  simp only [List.drop_succ_cons, List.drop_zero, hl]

theorem main_exits_on_failed_load_witness :
    main demo_read_image 5 ["lc3", "add.obj", "nope.obj", "data.obj"] blank_state
      = { calls := ["add.obj", "nope.obj"], outcome := .exited 1 } :=
  main_exits_on_failed_load demo_read_image 5 "lc3" ["add.obj"] "nope.obj" ["data.obj"]
    blank_state
    (by
      intro q hq u
      simp only [List.mem_singleton] at hq
      subst hq
      exact ⟨_, rfl⟩)
    (fun _ => rfl)

/-! ## Sign extension as a signed value -/

/-- C14: for a bit count of 5, 6, 9 or 11 and `x` below `2 ^ bit_count`, the
16-bit two's-complement value of `sign_extend x bit_count` is the
`bit_count`-bit two's-complement value of `x` (`x` below `2 ^ (bit_count - 1)`,
`x - 2 ^ bit_count` otherwise), and `sign_extend x bit_count` is that signed
value modulo `2 ^ 16`. -/
theorem sign_extend_preserves_value (bc x : Nat)
    (hbc : bc = 5 ∨ bc = 6 ∨ bc = 9 ∨ bc = 11) (hx : x < 2 ^ bc) :
    signed_value 16 (sign_extend x bc) = signed_value bc x ∧
    signed_value bc x = (if x < 2 ^ (bc - 1) then (x : Int) else (x : Int) - 2 ^ bc) ∧
    (sign_extend x bc : Int) = signed_value bc x % 65536 := by
  have ha := sign_extend_arith bc x hbc hx
  refine ⟨?_, rfl, ?_⟩
  · unfold signed_value
    rw [ha]
    rcases hbc with h | h | h | h <;> subst h <;> norm_num at hx ⊢ <;>
      split <;> split <;> omega
  · unfold signed_value
    rw [ha]
    rcases hbc with h | h | h | h <;> subst h <;> norm_num at hx ⊢ <;>
      split <;> omega

theorem sign_extend_preserves_value_witness :
    signed_value 16 (sign_extend 0x1F9 9) = -7 ∧ (sign_extend 0x1F9 9 : Int) = -7 % 65536 := by
  have h := sign_extend_preserves_value 9 0x1F9 (Or.inr (Or.inr (Or.inl rfl))) (by decide)
  have hv : signed_value 9 0x1F9 = -7 := by decide
  rw [hv] at h
  exact ⟨h.1, h.2.2⟩

/-! ## Frame of a step -/

/-- C16: when the fetched word is an ADD (either mode), one step succeeds and
changes no memory cell and no general-purpose register other than `DR`; the PC
becomes `(old PC + 1) mod 2^16`, so it wraps from 0xFFFF to 0x0000; `running`
keeps its value. -/
theorem step_add_frame (s : VM) (instr : Nat) (hf : (fetch s).1 = instr)
    (hop : instr >>> 12 = OP_ADD) :
    ∃ t, step s = .ok t ∧ (∀ a, t.memory a = s.memory a) ∧
      (∀ r, r < 8 → r ≠ (instr >>> 9) &&& 0x7 → t.reg r = s.reg r) ∧
      t.reg R_PC = (s.reg R_PC + 1) % 65536 ∧
      (s.reg R_PC = 0xFFFF → t.reg R_PC = 0) ∧
      t.running = s.running := by
  obtain ⟨v, c, hvc⟩ := exec_add_shape (fetch s).2 instr
  have hstep : step s = exec_add (fetch s).2 instr := by
    rw [← hf]; exact step_add s (by rw [hf]; exact hop)
  have hpc : (set_reg (set_reg (fetch s).2 ((instr >>> 9) &&& 0x7) v) R_COND c).reg R_PC
      = (s.reg R_PC + 1) % 65536 := by
    rw [set_reg_other _ _ _ _ (by decide), set_reg_other _ _ _ _ (field3_ne_pc _).symm,
      fetch_reg, if_pos rfl]
  refine ⟨_, hstep.trans hvc, ?_, ?_, hpc, ?_, ?_⟩
  · intro a
    rw [set_reg_memory, set_reg_memory, fetch_memory]
  · intro r hr hne
    rw [set_reg_other _ _ _ _ (Nat.ne_of_lt (Nat.lt_trans hr (by decide))),
      set_reg_other _ _ _ _ hne, fetch_reg, if_neg (Nat.ne_of_lt hr)]
  · intro h
    rw [hpc, h]
  · rw [set_reg_running, set_reg_running, fetch_running]

theorem step_add_frame_witness :
    ∃ t, step add_sub_demo = .ok t ∧ t.memory 0xFFFF = 0x16E7 ∧ t.reg R_R0 = 0 ∧
      t.reg R_PC = 0 ∧ t.running = 1 := by
  obtain ⟨t, ht, hmem, hreg, -, hwrap, hrun⟩ :=
    step_add_frame add_sub_demo 0x16E7 (by decide) (by decide)
  exact ⟨t, ht, hmem 0xFFFF, hreg 0 (by decide) (by decide), hwrap rfl, hrun⟩

/-- C17: when the fetched word has an opcode that is neither ADD nor LDI, one
step succeeds and leaves every memory cell, the eight general-purpose
registers, the condition register and `running` unchanged, and the PC becomes
`(old PC + 1) mod 2^16`; and a running loop that fetches `n` such words in a
row completes the `n` iterations with `running` still set and with memory and
every register but the PC as they were. -/
theorem stub_step_only_moves_pc (s : VM) (instr : Nat) (hf : (fetch s).1 = instr)
    (h1 : instr >>> 12 ≠ OP_ADD) (h2 : instr >>> 12 ≠ OP_LDI) :
    (∃ t, step s = .ok t ∧ (∀ a, t.memory a = s.memory a) ∧
      (∀ r, r < 8 → t.reg r = s.reg r) ∧ t.reg R_COND = s.reg R_COND ∧
      t.running = s.running ∧ t.reg R_PC = (s.reg R_PC + 1) % 65536) ∧
    (∀ n, stubs_only n s = true → s.running ≠ 0 →
      ∃ u, run_loop n s = .ok u ∧ u.running ≠ 0 ∧ (∀ a, u.memory a = s.memory a) ∧
        ∀ i, i ≠ R_PC → u.reg i = s.reg i) := by
  constructor
  · obtain ⟨t, ht, hrun, hmem, hpc, hreg⟩ :=
      step_stub s (by rw [hf]; exact h1) (by rw [hf]; exact h2)
    exact ⟨t, ht, fun a => by rw [hmem], fun r hr => hreg r (Nat.ne_of_lt hr),
      hreg R_COND (by decide), hrun, hpc⟩
  · intro n hn hr
    obtain ⟨u, hu, hrun, hmem, hreg⟩ := stubs_only_run n s hn hr
    exact ⟨u, hu, by rw [hrun]; exact hr, fun a => by rw [hmem], hreg⟩

theorem stub_step_only_moves_pc_witness :
    (∃ t, step stub_demo = .ok t ∧ t.reg R_R0 = 7 ∧ t.reg R_COND = FL_POS ∧
      t.running = 1 ∧ t.reg R_PC = 0x3001) ∧
    (∃ u, run_loop 3 stub_demo = .ok u ∧ u.running ≠ 0 ∧ u.reg R_R0 = 7) := by
  obtain ⟨⟨t, ht, -, hreg, hc, hrun, hpc⟩, hseq⟩ :=
    stub_step_only_moves_pc stub_demo 0x903F (by decide) (by decide) (by decide)
  obtain ⟨u, hu, hrun2, -, hreg2⟩ := hseq 3 (by decide) (by decide)
  exact ⟨⟨t, ht, hreg 0 (by decide), hc, hrun, hpc⟩,
    ⟨u, hu, hrun2, hreg2 0 (by decide)⟩⟩

/-- C18: for a register `R` in 0..7 holding the 16-bit value `v` and `k` in
1..15, when the loop fetches `ADD R, R, #k` (imm5 = k) and then
`ADD R, R, #-k` (imm5 = 32 - k), both steps succeed and `reg[R]` is `v` again,
also when the intermediate sum wraps past 0xFFFF; the final condition register
is the flag selected by `v`. -/
theorem add_then_subtract_restores (s : VM) (R v k i1 i2 : Nat) (_hR : R < 8)
    (hv : s.reg R = v) (h16 : v < 65536) (hk1 : 1 ≤ k) (hk2 : k ≤ 15)
    (hf1 : (fetch s).1 = i1) (hop1 : i1 >>> 12 = OP_ADD)
    (hdr1 : (i1 >>> 9) &&& 0x7 = R) (hsr1 : (i1 >>> 6) &&& 0x7 = R)
    (hm1 : (i1 >>> 5) &&& 0x1 = 1) (himm1 : i1 &&& 0x1F = k)
    (hf2 : ∀ t1, step s = .ok t1 → (fetch t1).1 = i2) (hop2 : i2 >>> 12 = OP_ADD)
    (hdr2 : (i2 >>> 9) &&& 0x7 = R) (hsr2 : (i2 >>> 6) &&& 0x7 = R)
    (hm2 : (i2 >>> 5) &&& 0x1 = 1) (himm2 : i2 &&& 0x1F = 32 - k) :
    ∃ t1 t2, step s = .ok t1 ∧ step t1 = .ok t2 ∧
      t1.reg R = (v + k) % 65536 ∧ t2.reg R = v ∧ flags_from v (t2.reg R_COND) := by
  obtain ⟨t1, ht1, hd1, -, -⟩ := step_add_immediate_mode s i1 hf1 hop1 hm1
  obtain ⟨t2, ht2, hd2, hfl2, -⟩ := step_add_immediate_mode t1 i2 (hf2 t1 ht1) hop2 hm2
  rw [hdr1, hsr1, himm1, hv] at hd1
  rw [hdr2, hsr2, himm2] at hd2
  rw [hdr2] at hfl2
  have e1 : sign_extend k 5 = k := by
    rw [sign_extend_arith 5 k (Or.inl rfl) (by norm_num; omega)]
    norm_num
    omega
  have e2 : sign_extend (32 - k) 5 = 65536 - k := by
    rw [sign_extend_arith 5 (32 - k) (Or.inl rfl) (by norm_num; omega)]
    norm_num
    split <;> omega
  rw [e1] at hd1
  rw [hd1, e2] at hd2
  have hfin : t2.reg R = v := by rw [hd2]; omega
  rw [hfin] at hfl2
  exact ⟨t1, t2, ht1, ht2, hd1, hfin, hfl2⟩

theorem add_then_subtract_restores_witness :
    ∃ t1 t2, step add_sub_demo = .ok t1 ∧ step t1 = .ok t2 ∧
      t1.reg R_R3 = (0xFFFC + 7) % 65536 ∧ t2.reg R_R3 = 0xFFFC ∧
      flags_from 0xFFFC (t2.reg R_COND) :=
  add_then_subtract_restores add_sub_demo 3 0xFFFC 7 0x16E7 0x16F9 (by decide) rfl
    (by decide) (by decide) (by decide) (by decide) (by decide) (by decide) (by decide)
    (by decide) (by decide)
    (by
      intro t1 h
      have h0 : ∃ x, step add_sub_demo = .ok x ∧ (fetch x).1 = 0x16F9 :=
        ⟨_, rfl, by decide⟩
      obtain ⟨x, hx, hfx⟩ := h0
      rw [hx] at h
      injection h with h
      subst h
      exact hfx)
    (by decide) (by decide) (by decide) (by decide) (by decide)

end LC3
